import Mathlib

/-!
Verification of the `FieldElement` finite-field value type
(`src/python/FieldElement.py`) against its specification.

Python integers are embedded as Lean `Int` (note that for a positive
divisor, Python's modulo and Lean's `Int` modulo `%` agree: both return the
non-negative residue).  The constructor, equality and textual representation
are translated from the source file; the arithmetic operations (`add`,
`subtract`, `multiply`, `power`, `divide`, `negate`) are absent from the
source and are modelled from the specification, as marked on each
definition.
-/

deriving instance DecidableEq for Except

/-- The error taxonomy of the specification (§7), realised in the source by
`ValueError`; plus the constructors needed for the modelled operations. -/
inductive FieldError where
  | outOfRangeError
  | incompatibleOrderError
  | divisionByZeroError
  | zeroToNonPositivePowerError
deriving DecidableEq, Repr

/-- Python's `AttributeError`, raised when an attribute lookup fails. -/
inductive PyError where
  | attributeError
deriving DecidableEq, Repr

/-- A field element as stored by the Python class: the attributes `num`
(the residue) and `order` (the modulus), both Python integers. -/
structure FieldElement where
  num : Int
  order : Int
deriving DecidableEq, Repr

/-- `FieldElement.__init__`: rejects `num >= order or num < 0` by raising
(`ValueError` in the source, `OutOfRangeError` in the spec's taxonomy),
otherwise stores `num` and `order` unchanged. -/
def FieldElement.create (num order : Int) : Except FieldError FieldElement :=
  if num ≥ order ∨ num < 0 then
    .error .outOfRangeError
  else
    .ok { num := num, order := order }

/-- The range invariant of the specification: `0 <= value < order`. -/
def FieldElement.inv (a : FieldElement) : Prop :=
  0 ≤ a.num ∧ a.num < a.order

instance (a : FieldElement) : Decidable a.inv :=
  inferInstanceAs (Decidable (_ ∧ _))

/-- `FieldElement.__repr__`: formats the order and then the residue into
the template `FieldElement_<order>(<num>)`. -/
def FieldElement.repr (a : FieldElement) : String :=
  "FieldElement_" ++ toString a.order ++ "(" ++ toString a.num ++ ")"

/-- A Python value that may be compared against a field element: `None`,
another `FieldElement`, or a value of a different type (an `int`, which has
no `num`/`order` attributes). -/
inductive PyValue where
  | pyNone
  | pyFieldElement (e : FieldElement)
  | pyInt (n : Int)
deriving DecidableEq, Repr

/-- `FieldElement.__eq__`: `None` compares unequal; another `FieldElement`
is compared attribute-wise; on any other type the attribute access
`other.num` raises `AttributeError`. -/
def FieldElement.eqPy (a : FieldElement) (other : PyValue) : Except PyError Bool :=
  match other with
  | .pyNone => .ok false
  | .pyFieldElement e => .ok (a.num == e.num && a.order == e.order)
  | .pyInt _ => .error .attributeError

/-- The equality relation induced by `__eq__` on two field elements. -/
def FieldElement.feq (a b : FieldElement) : Prop :=
  a.eqPy (.pyFieldElement b) = .ok true

instance (a b : FieldElement) : Decidable (a.feq b) :=
  inferInstanceAs (Decidable (_ = _))

/-- Modelled from the spec: `add` is missing from the source.  Fails with
`IncompatibleOrderError` when the orders differ, else returns a new element
with `value = (self.value + other.value) mod order`, same `order` (true
mathematical modulo: non-negative residue). -/
def FieldElement.add (a b : FieldElement) : Except FieldError FieldElement :=
  if a.order ≠ b.order then
    .error .incompatibleOrderError
  else
    .ok { num := (a.num + b.num) % a.order, order := a.order }

/-- Modelled from the spec: `subtract` is missing from the source.  Same
order constraint as addition; `value = (self.value - other.value) mod order`
with a non-negative residue. -/
def FieldElement.subtract (a b : FieldElement) : Except FieldError FieldElement :=
  if a.order ≠ b.order then
    .error .incompatibleOrderError
  else
    .ok { num := (a.num - b.num) % a.order, order := a.order }

/-- Modelled from the spec: `multiply` is missing from the source.  Same
order constraint; `value = (self.value * other.value) mod order`. -/
def FieldElement.multiply (a b : FieldElement) : Except FieldError FieldElement :=
  if a.order ≠ b.order then
    .error .incompatibleOrderError
  else
    .ok { num := (a.num * b.num) % a.order, order := a.order }

/-- Modelled from the spec: `negate` is missing from the source.
`value = (-self.value) mod order` (non-negative residue), same `order`. -/
def FieldElement.negate (a : FieldElement) : FieldElement :=
  { num := (-a.num) % a.order, order := a.order }

/-- Modelled from the spec: `power` is missing from the source.  A negative
exponent is first reduced modulo `order - 1` to a non-negative equivalent
(Fermat's little theorem); raising a zero element to a negative effective
exponent fails with `ZeroToNonPositivePowerError`; otherwise the result is
`value = (self.value ** exponent) mod order`, same `order`. -/
def FieldElement.power (a : FieldElement) (exponent : Int) : Except FieldError FieldElement :=
  let eff := if exponent < 0 then exponent % (a.order - 1) else exponent
  if a.num = 0 ∧ eff < 0 then
    .error .zeroToNonPositivePowerError
  else
    .ok { num := (a.num ^ eff.toNat) % a.order, order := a.order }

/-- Modelled from the spec: `divide` is missing from the source.  Same order
constraint as addition; fails with `DivisionByZeroError` on a zero divisor;
otherwise `self * other.power(order - 2)`. -/
def FieldElement.divide (a b : FieldElement) : Except FieldError FieldElement :=
  if a.order ≠ b.order then
    .error .incompatibleOrderError
  else if b.num = 0 then
    .error .divisionByZeroError
  else
    match b.power (a.order - 2) with
    | .error e => .error e
    | .ok i => a.multiply i

/-! ### Helper lemmas -/

/-- An element whose residue is a modulus reduction by a positive order
satisfies the range invariant. -/
theorem FieldElement.mk_emod_inv (m : Int) {o : Int} (ho : 0 < o) :
    FieldElement.inv { num := m % o, order := o } :=
  ⟨Int.emod_nonneg m (ne_of_gt ho), Int.emod_lt_of_pos m ho⟩

/-- The range invariant forces a positive order. -/
theorem FieldElement.inv_order_pos {a : FieldElement} (h : a.inv) : 0 < a.order :=
  lt_of_le_of_lt h.1 h.2

/-- Construction only succeeds inside the range invariant. -/
theorem FieldElement.create_inv (num order : Int) (a : FieldElement)
    (h : FieldElement.create num order = .ok a) : a.inv := by
  unfold FieldElement.create at h
  split at h
  · exact absurd h (by simp)
  · rename_i hc
    push_neg at hc
    simp only [Except.ok.injEq] at h
    subst h
    exact ⟨hc.2, hc.1⟩

/-- A successful addition preserves the range invariant. -/
theorem FieldElement.add_inv (a b c : FieldElement) (ha : a.inv)
    (h : a.add b = .ok c) : c.inv := by
  unfold FieldElement.add at h
  split at h
  · exact absurd h (by simp)
  · simp only [Except.ok.injEq] at h
    subst h
    exact FieldElement.mk_emod_inv _ (FieldElement.inv_order_pos ha)

/-- A successful subtraction preserves the range invariant. -/
theorem FieldElement.subtract_inv (a b c : FieldElement) (ha : a.inv)
    (h : a.subtract b = .ok c) : c.inv := by
  unfold FieldElement.subtract at h
  split at h
  · exact absurd h (by simp)
  · simp only [Except.ok.injEq] at h
    subst h
    exact FieldElement.mk_emod_inv _ (FieldElement.inv_order_pos ha)

/-- A successful multiplication preserves the range invariant. -/
theorem FieldElement.multiply_inv (a b c : FieldElement) (ha : a.inv)
    (h : a.multiply b = .ok c) : c.inv := by
  unfold FieldElement.multiply at h
  split at h
  · exact absurd h (by simp)
  · simp only [Except.ok.injEq] at h
    subst h
    exact FieldElement.mk_emod_inv _ (FieldElement.inv_order_pos ha)

/-- Negation preserves the range invariant. -/
theorem FieldElement.negate_inv (a : FieldElement) (ha : a.inv) :
    a.negate.inv :=
  FieldElement.mk_emod_inv _ (FieldElement.inv_order_pos ha)

/-- A successful exponentiation preserves the range invariant. -/
theorem FieldElement.power_inv (a : FieldElement) (e : Int) (c : FieldElement)
    (ha : a.inv) (h : a.power e = .ok c) : c.inv := by
  simp only [FieldElement.power] at h
  by_cases hc : a.num = 0 ∧ (if e < 0 then e % (a.order - 1) else e) < 0
  · rw [if_pos hc] at h
    exact absurd h (by simp)
  · rw [if_neg hc] at h
    simp only [Except.ok.injEq] at h
    subst h
    exact FieldElement.mk_emod_inv _ (FieldElement.inv_order_pos ha)

/-- A successful division preserves the range invariant. -/
theorem FieldElement.divide_inv (a b c : FieldElement) (ha : a.inv)
    (h : a.divide b = .ok c) : c.inv := by
  unfold FieldElement.divide at h
  split at h
  · exact absurd h (by simp)
  · split at h
    · exact absurd h (by simp)
    · rcases hp : b.power (a.order - 2) with e | i
      · rw [hp] at h
        exact absurd h (by simp)
      · rw [hp] at h
        exact FieldElement.multiply_inv a i c ha h

/-! ### Claim theorems -/

/-- C1: for every instance that exists, `0 <= value < order` holds: the
constructor rejects any pair violating it, and every operation (addition,
subtraction, multiplication, negation, exponentiation, division) maps
in-range operands to an in-range result. -/
theorem claim1_range_invariant :
    (∀ (num order : Int) (a : FieldElement),
      FieldElement.create num order = .ok a → a.inv) ∧
    (∀ a b c : FieldElement, a.inv → a.add b = .ok c → c.inv) ∧
    (∀ a b c : FieldElement, a.inv → a.subtract b = .ok c → c.inv) ∧
    (∀ a b c : FieldElement, a.inv → a.multiply b = .ok c → c.inv) ∧
    (∀ a : FieldElement, a.inv → a.negate.inv) ∧
    (∀ (a : FieldElement) (e : Int) (c : FieldElement),
      a.inv → a.power e = .ok c → c.inv) ∧
    (∀ a b c : FieldElement, a.inv → a.divide b = .ok c → c.inv) :=
  ⟨FieldElement.create_inv, FieldElement.add_inv, FieldElement.subtract_inv,
   FieldElement.multiply_inv, FieldElement.negate_inv, FieldElement.power_inv,
   FieldElement.divide_inv⟩

/-- Witness for C1 at concrete inputs: adding 7 and 6 in the field of order
13 produces an in-range element. -/
theorem claim1_range_invariant_witness :
    FieldElement.inv { num := 0, order := 13 } :=
  claim1_range_invariant.2.1 { num := 7, order := 13 } { num := 6, order := 13 }
    { num := 0, order := 13 } (by decide) (by decide)

/-- C2: for every integer `num` and positive `order` with `num < 0` or
`num >= order`, construction fails with the out-of-range error and produces
no instance. -/
theorem claim2_out_of_range_rejected (num order : Int) (_hpos : 0 < order)
    (h : num < 0 ∨ order ≤ num) :
    FieldElement.create num order = .error .outOfRangeError := by
  unfold FieldElement.create
  rw [if_pos]
  rcases h with h | h
  · exact Or.inr h
  · exact Or.inl h

/-- Witness for C2: constructing 13 in the field of order 13 fails. -/
theorem claim2_out_of_range_rejected_witness :
    FieldElement.create 13 13 = .error .outOfRangeError :=
  claim2_out_of_range_rejected 13 13 (by decide) (by decide)

/-- C3: for every pair with `0 <= num < order`, construction succeeds and
stores exactly the given residue and order. -/
theorem claim3_valid_create (num order : Int) (h0 : 0 ≤ num) (h1 : num < order) :
    FieldElement.create num order = .ok { num := num, order := order } := by
  have hc : ¬(num ≥ order ∨ num < 0) := by
    push_neg
    exact ⟨h1, h0⟩
  unfold FieldElement.create
  rw [if_neg hc]

/-- Witness for C3: constructing 7 in the field of order 13 succeeds. -/
theorem claim3_valid_create_witness :
    FieldElement.create 7 13 = .ok { num := 7, order := 13 } :=
  claim3_valid_create 7 13 (by decide) (by decide)

/-- C4: equality of two field elements holds iff both residues and both
orders match exactly; in particular the elements 7 and 6 of the field of
order 13 are unequal. -/
theorem claim4_eq_iff_components :
    (∀ a b : FieldElement,
      a.eqPy (.pyFieldElement b) = .ok true ↔ a.num = b.num ∧ a.order = b.order) ∧
    FieldElement.eqPy { num := 7, order := 13 }
      (.pyFieldElement { num := 6, order := 13 }) = .ok false := by
  refine ⟨fun a b => ?_, by decide⟩
  simp [FieldElement.eqPy]

/-- Witness for C4: matching components give a true comparison. -/
theorem claim4_eq_iff_components_witness :
    FieldElement.eqPy { num := 7, order := 13 }
      (.pyFieldElement { num := 7, order := 13 }) = .ok true :=
  (claim4_eq_iff_components.1 { num := 7, order := 13 }
    { num := 7, order := 13 }).mpr ⟨rfl, rfl⟩

/-- C5 counterexample: comparing the element 7 of the field of order 13
against the integer 5 (a value of a different type) raises
`AttributeError` instead of returning `false`. -/
theorem claim5_counterexample :
    FieldElement.eqPy { num := 7, order := 13 } (.pyInt 5)
        = .error .attributeError ∧
    ¬ FieldElement.eqPy { num := 7, order := 13 } (.pyInt 5) = .ok false := by
  decide

/-- C5 amended: comparison against an absent value (`None`) returns `false`
without error, but comparison against a value of a different type (one
without `num`/`order` attributes, such as an integer) raises
`AttributeError` rather than returning `false`. -/
theorem claim5_none_false_int_raises :
    (∀ a : FieldElement, a.eqPy .pyNone = .ok false) ∧
    (∀ (a : FieldElement) (n : Int),
      a.eqPy (.pyInt n) = .error .attributeError) :=
  ⟨fun _ => rfl, fun _ _ => rfl⟩

/-- C6: addition fails with the incompatible-order error when the orders
differ, and otherwise returns the sum of the residues modulo the order with
the same order; concretely 7 + 6 = 0 in the field of order 13. -/
theorem claim6_add :
    (∀ a b : FieldElement, a.order ≠ b.order →
      a.add b = .error .incompatibleOrderError) ∧
    (∀ a b : FieldElement, a.order = b.order →
      a.add b = .ok { num := (a.num + b.num) % a.order, order := a.order }) ∧
    FieldElement.add { num := 7, order := 13 } { num := 6, order := 13 }
      = .ok { num := 0, order := 13 } := by
  refine ⟨fun a b h => ?_, fun a b h => ?_, by decide⟩
  · simp [FieldElement.add, h]
  · simp [FieldElement.add, h]

/-- Witness for C6: adding elements of orders 5 and 7 fails. -/
theorem claim6_add_witness :
    FieldElement.add { num := 1, order := 5 } { num := 1, order := 7 }
      = .error .incompatibleOrderError :=
  claim6_add.1 { num := 1, order := 5 } { num := 1, order := 7 } (by decide)

/-- C8: the equality relation induced by the source's comparison is
reflexive, symmetric and transitive on field elements. -/
theorem claim8_equivalence :
    (∀ a : FieldElement, a.feq a) ∧
    (∀ a b : FieldElement, a.feq b → b.feq a) ∧
    (∀ a b c : FieldElement, a.feq b → b.feq c → a.feq c) := by
  refine ⟨fun a => ?_, fun a b h => ?_, fun a b c h1 h2 => ?_⟩
  · simp [FieldElement.feq, FieldElement.eqPy]
  · simp only [FieldElement.feq, FieldElement.eqPy, Except.ok.injEq,
      Bool.and_eq_true, beq_iff_eq] at h ⊢
    exact ⟨h.1.symm, h.2.symm⟩
  · simp only [FieldElement.feq, FieldElement.eqPy, Except.ok.injEq,
      Bool.and_eq_true, beq_iff_eq] at h1 h2 ⊢
    exact ⟨h1.1.trans h2.1, h1.2.trans h2.2⟩

/-- Witness for C8: symmetry applied at a concrete pair. -/
theorem claim8_equivalence_witness :
    FieldElement.feq { num := 7, order := 13 } { num := 7, order := 13 } :=
  claim8_equivalence.2.1 { num := 7, order := 13 } { num := 7, order := 13 }
    (by decide)

/-- C9: the textual representation of an element with residue `v` and order
`o` is exactly the decimal rendering `FieldElement_<o>(<v>)`; concretely
the element 7 of the field of order 13 renders as `FieldElement_13(7)`. -/
theorem claim9_repr :
    (∀ a : FieldElement,
      a.repr = "FieldElement_" ++ toString a.order ++ "(" ++ toString a.num ++ ")") ∧
    FieldElement.repr { num := 7, order := 13 } = "FieldElement_13(7)" :=
  ⟨fun _ => rfl, rfl⟩

/-- C10 (implicit): for every integer `num` and every `order <= 0`,
construction fails, so no instance with a non-positive order can exist. -/
theorem claim10_nonpositive_order (num order : Int) (h : order ≤ 0) :
    FieldElement.create num order = .error .outOfRangeError := by
  unfold FieldElement.create
  rw [if_pos]
  by_cases hn : num < 0
  · exact Or.inr hn
  · exact Or.inl (by omega)

/-- Witness for C10: constructing any residue with order 0 fails. -/
theorem claim10_nonpositive_order_witness :
    FieldElement.create 5 0 = .error .outOfRangeError :=
  claim10_nonpositive_order 5 0 (by decide)

/-- Fermat inversion for integers: for a prime `p` and `0 < v < p`,
multiplying `v` by the reduced power `v ^ (p - 2) mod p` yields residue 1. -/
theorem fermat_mul_pow_sub_two (p : Nat) (hp : p.Prime) (v : Int)
    (h0 : 0 < v) (hlt : v < (p : Int)) :
    (v * (v ^ (p - 2) % (p : Int))) % (p : Int) = 1 := by
  haveI : Fact p.Prime := ⟨hp⟩
  have h2 : 2 ≤ p := hp.two_le
  have hvz : ((v : ZMod p)) ≠ 0 := by
    intro hz
    rw [ZMod.intCast_zmod_eq_zero_iff_dvd] at hz
    have := Int.le_of_dvd h0 hz
    omega
  have hfer : (v : ZMod p) ^ (p - 1) = 1 := ZMod.pow_card_sub_one_eq_one hvz
  have hpow : v * v ^ (p - 2) = v ^ (p - 1) := by
    conv_rhs => rw [show p - 1 = (p - 2) + 1 by omega]
    rw [pow_succ]
    ring
  have hdrop : (v * (v ^ (p - 2) % (p : Int))) % (p : Int)
      = (v * v ^ (p - 2)) % (p : Int) := by
    rw [Int.mul_emod, Int.mul_emod v (v ^ (p - 2)), Int.emod_emod_of_dvd _ dvd_rfl]
  have hcast : ((v ^ (p - 1) : Int) : ZMod p) = ((1 : Int) : ZMod p) := by
    push_cast
    exact hfer
  have hmodeq := (ZMod.intCast_eq_intCast_iff (v ^ (p - 1)) 1 p).mp hcast
  have hone : (1 : Int) % (p : Int) = 1 :=
    Int.emod_eq_of_lt (by omega) (by exact_mod_cast h2)
  rw [hdrop, hpow]
  calc v ^ (p - 1) % (p : Int) = 1 % (p : Int) := hmodeq
    _ = 1 := hone

/-- Reduction of the exponent `-1` modulo `p - 1` lands on `p - 2`. -/
theorem neg_one_emod_sub_one (p : Nat) (h2 : 2 ≤ p) :
    (-1 : Int) % ((p : Int) - 1) = (p : Int) - 2 := by
  have h2i : (2 : Int) ≤ (p : Int) := by exact_mod_cast h2
  have hself := Int.add_mul_emod_self_left (a := (-1 : Int)) (b := (p : Int) - 1)
    (c := 1)
  rw [mul_one] at hself
  rw [← hself, show (-1 + ((p : Int) - 1)) = (p : Int) - 2 by ring]
  exact Int.emod_eq_of_lt (by omega) (by omega)

/-- C7: for an in-range element of a prime order with non-zero residue and
any negative exponent, exponentiation reduces the exponent modulo
`order - 1` to a non-negative equivalent, and in particular multiplying the
element by its power at exponent -1 gives the unit element. -/
theorem claim7_negative_exponent (a : FieldElement) (p : Nat) (hp : p.Prime)
    (hord : a.order = (p : Int)) (hinv : a.inv) (hnz : a.num ≠ 0)
    (e : Int) (he : e < 0) :
    0 ≤ e % (a.order - 1) ∧
    a.power e = a.power (e % (a.order - 1)) ∧
    ∃ x, a.power (-1) = .ok x ∧
      a.multiply x = .ok { num := 1, order := a.order } := by
  obtain ⟨v, o⟩ := a
  obtain ⟨hnn, hlt⟩ := hinv
  simp only at hord hnn hlt hnz
  subst hord
  have h2 : 2 ≤ p := hp.two_le
  have h2i : (2 : Int) ≤ (p : Int) := by exact_mod_cast h2
  have hmpos : (0 : Int) < (p : Int) - 1 := by omega
  have hred : 0 ≤ e % ((p : Int) - 1) := Int.emod_nonneg e (ne_of_gt hmpos)
  refine ⟨hred, ?_, ?_⟩
  · simp only [FieldElement.power]
    rw [if_pos he, if_neg (not_lt.mpr hred)]
  · have heff : (-1 : Int) % ((p : Int) - 1) = (p : Int) - 2 :=
      neg_one_emod_sub_one p h2
    have ht : ((p : Int) - 2).toNat = p - 2 := by omega
    have hv0 : 0 < v := lt_of_le_of_ne hnn (Ne.symm hnz)
    refine ⟨{ num := (v ^ (p - 2)) % (p : Int), order := (p : Int) }, ?_, ?_⟩
    · simp only [FieldElement.power]
      rw [if_pos (by decide : (-1 : Int) < 0), heff, ht,
        if_neg (by simp [hnz])]
    · simp only [FieldElement.multiply]
      rw [if_neg (by simp),
        fermat_mul_pow_sub_two p hp v hv0 hlt]

/-- Witness for C7 at the element 7 of the field of order 13 and exponent
-3: the reduction is non-negative, the two powers agree, and 7 times its
inverse is 1. -/
theorem claim7_negative_exponent_witness :
    0 ≤ (-3 : Int) % ((13 : Int) - 1) ∧
    FieldElement.power { num := 7, order := 13 } (-3)
      = FieldElement.power { num := 7, order := 13 } ((-3 : Int) % ((13 : Int) - 1)) ∧
    ∃ x, FieldElement.power { num := 7, order := 13 } (-1) = .ok x ∧
      FieldElement.multiply { num := 7, order := 13 } x
        = .ok { num := 1, order := 13 } :=
  claim7_negative_exponent { num := 7, order := 13 } 13 (by norm_num) rfl
    (by decide) (by decide) (-3) (by decide)
